import Mathlib

/-!
Verification of the shape/member value model of `rust-atelier`
(`atelier-core/src/model/shapes/services.rs`): the `Service`, `Operation`
and `Resource` shapes, their `Member` slots holding a tagged `NodeValue`,
and the accessor families generated by the `optional_member!` and
`array_member!` macros.

Fallible accesses (the `invalid_value_variant` fatal branches and the
`unwrap` on a never-set required member) are embedded as `Option`: `none`
models the abort.
-/

namespace Atelier

/-- Opaque lexical identifier; equality-comparable value type. -/
abbrev Identifier := String

/-- Opaque global shape identifier (a `Reference` payload). -/
abbrev ShapeID := String

/-- Key of an object entry; in this fragment every key is an `Identifier`. -/
abbrev Key := Identifier

/-- The tagged value union `NodeValue` (the variants this fragment uses):
`String`, `ShapeID`, `Array`, and `Object` of key/value pairs. -/
inductive NodeValue : Type where
  | str : String → NodeValue
  | shapeID : ShapeID → NodeValue
  | array : List NodeValue → NodeValue
  | object : List (Key × NodeValue) → NodeValue

/-- Modelled from the spec: `Member` is `{ name: Identifier, value: Optional<Value> }`
(its Rust definition lives outside this source fragment). -/
structure Member : Type where
  name : Identifier
  value : Option NodeValue

/-- Modelled from the spec: `Member::new(name)` constructs with no value. -/
def Member.new (name : Identifier) : Member := ⟨name, none⟩

/-- Modelled from the spec: `Member::with_value(name, value)` constructs pre-populated. -/
def Member.with_value (name : Identifier) (value : NodeValue) : Member := ⟨name, some value⟩

/-- Modelled from the spec: `Member::set_value(v)` overwrites unconditionally. -/
def Member.set_value (m : Member) (v : NodeValue) : Member := { m with value := some v }

/-- Modelled from the spec: `Member::unset_value()` clears to absent. -/
def Member.unset_value (m : Member) : Member := { m with value := none }

/-! ### The `optional_member!` accessor family, generic over the member slot. -/

/-- `$has`: `self.$member.value().is_some()`. -/
def optHas (m : Member) : Bool := m.value.isSome

/-- `$member` getter: `None` if absent, the stored `ShapeID` otherwise;
a non-`ShapeID` variant hits `invalid_value_variant` (embedded as `none`). -/
def optGet (m : Member) : Option (Option ShapeID) :=
  match m.value with
  | none => some none
  | some (NodeValue.shapeID id) => some (some id)
  | some _ => none

/-- `$setter`: `self.$member.set_value(NodeValue::ShapeID(v))`. -/
def optSet (m : Member) (v : ShapeID) : Member := m.set_value (NodeValue.shapeID v)

/-- `$unsetter`: `self.$member.unset_value()`. -/
def optUnset (m : Member) : Member := m.unset_value

/-! ### The `array_member!` accessor family, generic over the member slot. -/

/-- `$has_fn`: non-emptiness of the backing `Array`; any other state hits
`invalid_value_variant` (embedded as `none`). -/
def arrayHas (m : Member) : Option Bool :=
  match m.value with
  | some (NodeValue.array vs) => some (!vs.isEmpty)
  | _ => none

/-- The element mapping of the `$collection` iterator: each element must be a
`ShapeID`; a non-`ShapeID` element hits `invalid_value_variant` (`none`). -/
def shapeIDs : List NodeValue → Option (List ShapeID)
  | [] => some []
  | NodeValue.shapeID id :: rest => (shapeIDs rest).map (fun l => id :: l)
  | _ => none

/-- `$collection` iterator: each element must be a `ShapeID`; a non-`ShapeID`
element or a non-`Array` member hits `invalid_value_variant` (`none`). -/
def arrayIterate (m : Member) : Option (List ShapeID) :=
  match m.value with
  | some (NodeValue.array vs) => shapeIDs vs
  | _ => none

/-- `$add_fn`: `vs.push(NodeValue::ShapeID(v))` on the backing `Array`. -/
def arrayAdd (m : Member) (v : ShapeID) : Option Member :=
  match m.value with
  | some (NodeValue.array vs) =>
      some { m with value := some (NodeValue.array (vs ++ [NodeValue.shapeID v])) }
  | _ => none

/-- `$append_fn`: `vs.append(&mut collection.iter().cloned().map(NodeValue::ShapeID).collect())`. -/
def arrayAppend (m : Member) (c : List ShapeID) : Option Member :=
  match m.value with
  | some (NodeValue.array vs) =>
      some { m with value := some (NodeValue.array (vs ++ c.map NodeValue.shapeID)) }
  | _ => none

/-- `$remove_fn`: `vs.retain(|v| v == &id_value)` — as written, this KEEPS
the elements equal to the argument and deletes all others. -/
def arrayRemove (m : Member) (v : ShapeID) : Option Member :=
  match m.value with
  | some (NodeValue.array vs) =>
      some { m with value := some (NodeValue.array (vs.filter
        (fun x => match x with | NodeValue.shapeID y => y == v | _ => false))) }
  | _ => none

/-! ### The keyed-mapping backing store for `Resource.identifiers`. -/

/-- Modelled from the spec: the `Mapping` payload is an ordered collection of
`(Key, Value)` pairs with unique keys; `insert` inserts or overwrites by key
(the concrete map type is outside this source fragment). -/
def mapInsert (vs : List (Key × NodeValue)) (k : Key) (v : NodeValue) :
    List (Key × NodeValue) :=
  if vs.any (fun p => p.1 = k) then
    vs.map (fun p => if p.1 = k then (k, v) else p)
  else
    vs ++ [(k, v)]

/-! ### `Service` -/

/-- `Service { version, operations, resources }`.  Field names carry an `M`
suffix so the accessor functions can keep the Rust method names. -/
structure Service : Type where
  versionM : Member
  operationsM : Member
  resourcesM : Member

/-- `impl Default for Service`: `version` absent, `operations` and
`resources` empty arrays. -/
def Service.default : Service :=
  { versionM := Member.new "version"
    operationsM := Member.with_value "operations" (NodeValue.array [])
    resourcesM := Member.with_value "resources" (NodeValue.array []) }

/-- `Service::version`: `unwrap` of the member value (panic when never set,
embedded as `none`) followed by the `String`-variant match
(`invalid_value_variant` otherwise, also `none`). -/
def Service.version (s : Service) : Option String :=
  match s.versionM.value with
  | some (NodeValue.str v) => some v
  | _ => none

/-- `Service::set_version`. -/
def Service.set_version (s : Service) (version : String) : Service :=
  { s with versionM := s.versionM.set_value (NodeValue.str version) }

/-- `Service::has_operations`. -/
def Service.has_operations (s : Service) : Option Bool := arrayHas s.operationsM

/-- `Service::operations` iterator. -/
def Service.operations (s : Service) : Option (List ShapeID) := arrayIterate s.operationsM

/-- `Service::add_operation`. -/
def Service.add_operation (s : Service) (v : ShapeID) : Option Service :=
  (arrayAdd s.operationsM v).map (fun m => { s with operationsM := m })

/-- `Service::append_operations`. -/
def Service.append_operations (s : Service) (c : List ShapeID) : Option Service :=
  (arrayAppend s.operationsM c).map (fun m => { s with operationsM := m })

/-- `Service::remove_operation`. -/
def Service.remove_operation (s : Service) (v : ShapeID) : Option Service :=
  (arrayRemove s.operationsM v).map (fun m => { s with operationsM := m })

/-- `Service::has_resources`. -/
def Service.has_resources (s : Service) : Option Bool := arrayHas s.resourcesM

/-- `Service::resources` iterator. -/
def Service.resources (s : Service) : Option (List ShapeID) := arrayIterate s.resourcesM

/-- `Service::add_resource`. -/
def Service.add_resource (s : Service) (v : ShapeID) : Option Service :=
  (arrayAdd s.resourcesM v).map (fun m => { s with resourcesM := m })

/-- `Service::append_resources`. -/
def Service.append_resources (s : Service) (c : List ShapeID) : Option Service :=
  (arrayAppend s.resourcesM c).map (fun m => { s with resourcesM := m })

/-- `Service::remove_resource`. -/
def Service.remove_resource (s : Service) (v : ShapeID) : Option Service :=
  (arrayRemove s.resourcesM v).map (fun m => { s with resourcesM := m })

/-! ### `Operation` -/

/-- `Operation { input, output, errors }`. -/
structure Operation : Type where
  inputM : Member
  outputM : Member
  errorsM : Member

/-- `impl Default for Operation`: `input` and `output` absent, `errors` an
empty array. -/
def Operation.default : Operation :=
  { inputM := Member.new "input"
    outputM := Member.new "output"
    errorsM := Member.with_value "errors" (NodeValue.array []) }

/-- `Operation::has_input`. -/
def Operation.has_input (o : Operation) : Bool := optHas o.inputM

/-- `Operation::input`. -/
def Operation.input (o : Operation) : Option (Option ShapeID) := optGet o.inputM

/-- `Operation::set_input`. -/
def Operation.set_input (o : Operation) (v : ShapeID) : Operation :=
  { o with inputM := optSet o.inputM v }

/-- `Operation::unset_input`. -/
def Operation.unset_input (o : Operation) : Operation :=
  { o with inputM := optUnset o.inputM }

/-- `Operation::has_output`. -/
def Operation.has_output (o : Operation) : Bool := optHas o.outputM

/-- `Operation::output`. -/
def Operation.output (o : Operation) : Option (Option ShapeID) := optGet o.outputM

/-- `Operation::set_output`. -/
def Operation.set_output (o : Operation) (v : ShapeID) : Operation :=
  { o with outputM := optSet o.outputM v }

/-- `Operation::unset_output`. -/
def Operation.unset_output (o : Operation) : Operation :=
  { o with outputM := optUnset o.outputM }

/-- `Operation::has_errors`. -/
def Operation.has_errors (o : Operation) : Option Bool := arrayHas o.errorsM

/-- `Operation::errors` iterator. -/
def Operation.errors (o : Operation) : Option (List ShapeID) := arrayIterate o.errorsM

/-- `Operation::add_error`. -/
def Operation.add_error (o : Operation) (v : ShapeID) : Option Operation :=
  (arrayAdd o.errorsM v).map (fun m => { o with errorsM := m })

/-- `Operation::append_errors`. -/
def Operation.append_errors (o : Operation) (c : List ShapeID) : Option Operation :=
  (arrayAppend o.errorsM c).map (fun m => { o with errorsM := m })

/-- `Operation::remove_error`. -/
def Operation.remove_error (o : Operation) (v : ShapeID) : Option Operation :=
  (arrayRemove o.errorsM v).map (fun m => { o with errorsM := m })

/-! ### `Resource` -/

/-- `Resource { identifiers, create, put, read, update, delete, list,
operations, collection_operations, resources }`. -/
structure Resource : Type where
  identifiersM : Member
  createM : Member
  putM : Member
  readM : Member
  updateM : Member
  deleteM : Member
  listM : Member
  operationsM : Member
  collectionOperationsM : Member
  resourcesM : Member

/-- `impl Default for Resource`: `identifiers` an empty object, the six
lifecycle members absent, the three collection members empty arrays. -/
def Resource.default : Resource :=
  { identifiersM := Member.with_value "identifiers" (NodeValue.object [])
    createM := Member.new "create"
    putM := Member.new "put"
    readM := Member.new "read"
    updateM := Member.new "update"
    deleteM := Member.new "delete"
    listM := Member.new "list"
    operationsM := Member.with_value "operations" (NodeValue.array [])
    collectionOperationsM := Member.with_value "collection_operations" (NodeValue.array [])
    resourcesM := Member.with_value "resources" (NodeValue.array []) }

/-- `Resource::has_identifiers`: non-emptiness of the backing `Object`;
any other state hits `invalid_value_variant` (`none`). -/
def Resource.has_identifiers (r : Resource) : Option Bool :=
  match r.identifiersM.value with
  | some (NodeValue.object vs) => some (!vs.isEmpty)
  | _ => none

/-- The entry mapping of the `Resource::identifiers` iterator: each value must
be a `ShapeID` (`as_reference().unwrap()`); otherwise fatal (`none`). -/
def identifierPairs : List (Key × NodeValue) → Option (List (Identifier × ShapeID))
  | [] => some []
  | (k, NodeValue.shapeID id) :: rest => (identifierPairs rest).map (fun l => (k, id) :: l)
  | (_, _) :: _ => none

/-- `Resource::identifiers` iterator: each value must be a `ShapeID`
(`as_reference().unwrap()`); otherwise fatal (`none`). -/
def Resource.identifiers (r : Resource) : Option (List (Identifier × ShapeID)) :=
  match r.identifiersM.value with
  | some (NodeValue.object vs) => identifierPairs vs
  | _ => none

/-- `Resource::add_identifier`: `vs.insert(id.into(), shape.into())` on the
backing `Object`. -/
def Resource.add_identifier (r : Resource) (id : Identifier) (shape : ShapeID) :
    Option Resource :=
  match r.identifiersM.value with
  | some (NodeValue.object vs) =>
      some { r with identifiersM := { r.identifiersM with
        value := some (NodeValue.object (mapInsert vs id (NodeValue.shapeID shape))) } }
  | _ => none

/-- `Resource::remove_identifier`: `vs.retain(|k, _| k == &key)` — as
written, this KEEPS the entry with the given key and deletes all others. -/
def Resource.remove_identifier (r : Resource) (id : Identifier) : Option Resource :=
  match r.identifiersM.value with
  | some (NodeValue.object vs) =>
      some { r with identifiersM := { r.identifiersM with
        value := some (NodeValue.object (vs.filter (fun p => p.1 == id))) } }
  | _ => none

/-- `Resource::has_create`. -/
def Resource.has_create (r : Resource) : Bool := optHas r.createM

/-- `Resource::create`. -/
def Resource.create (r : Resource) : Option (Option ShapeID) := optGet r.createM

/-- `Resource::set_create`. -/
def Resource.set_create (r : Resource) (v : ShapeID) : Resource :=
  { r with createM := optSet r.createM v }

/-- `Resource::unset_create`. -/
def Resource.unset_create (r : Resource) : Resource :=
  { r with createM := optUnset r.createM }

/-- `Resource::has_put`. -/
def Resource.has_put (r : Resource) : Bool := optHas r.putM

/-- `Resource::put`. -/
def Resource.put (r : Resource) : Option (Option ShapeID) := optGet r.putM

/-- `Resource::set_put`. -/
def Resource.set_put (r : Resource) (v : ShapeID) : Resource :=
  { r with putM := optSet r.putM v }

/-- `Resource::unset_put`. -/
def Resource.unset_put (r : Resource) : Resource :=
  { r with putM := optUnset r.putM }

/-- `Resource::has_read`. -/
def Resource.has_read (r : Resource) : Bool := optHas r.readM

/-- `Resource::read`. -/
def Resource.read (r : Resource) : Option (Option ShapeID) := optGet r.readM

/-- `Resource::set_read`. -/
def Resource.set_read (r : Resource) (v : ShapeID) : Resource :=
  { r with readM := optSet r.readM v }

/-- `Resource::unset_read`. -/
def Resource.unset_read (r : Resource) : Resource :=
  { r with readM := optUnset r.readM }

/-- `Resource::has_update`. -/
def Resource.has_update (r : Resource) : Bool := optHas r.updateM

/-- `Resource::update`. -/
def Resource.update (r : Resource) : Option (Option ShapeID) := optGet r.updateM

/-- `Resource::set_update`. -/
def Resource.set_update (r : Resource) (v : ShapeID) : Resource :=
  { r with updateM := optSet r.updateM v }

/-- `Resource::unset_update`. -/
def Resource.unset_update (r : Resource) : Resource :=
  { r with updateM := optUnset r.updateM }

/-- `Resource::has_delete`. -/
def Resource.has_delete (r : Resource) : Bool := optHas r.deleteM

/-- `Resource::delete`. -/
def Resource.delete (r : Resource) : Option (Option ShapeID) := optGet r.deleteM

/-- `Resource::set_delete`. -/
def Resource.set_delete (r : Resource) (v : ShapeID) : Resource :=
  { r with deleteM := optSet r.deleteM v }

/-- `Resource::unset_delete`. -/
def Resource.unset_delete (r : Resource) : Resource :=
  { r with deleteM := optUnset r.deleteM }

/-- `Resource::has_list`. -/
def Resource.has_list (r : Resource) : Bool := optHas r.listM

/-- `Resource::list`. -/
def Resource.list (r : Resource) : Option (Option ShapeID) := optGet r.listM

/-- `Resource::set_list`. -/
def Resource.set_list (r : Resource) (v : ShapeID) : Resource :=
  { r with listM := optSet r.listM v }

/-- `Resource::unset_list`. -/
def Resource.unset_list (r : Resource) : Resource :=
  { r with listM := optUnset r.listM }

/-- `Resource::has_operations`. -/
def Resource.has_operations (r : Resource) : Option Bool := arrayHas r.operationsM

/-- `Resource::operations` iterator. -/
def Resource.operations (r : Resource) : Option (List ShapeID) := arrayIterate r.operationsM

/-- `Resource::add_operation`. -/
def Resource.add_operation (r : Resource) (v : ShapeID) : Option Resource :=
  (arrayAdd r.operationsM v).map (fun m => { r with operationsM := m })

/-- `Resource::append_operations`. -/
def Resource.append_operations (r : Resource) (c : List ShapeID) : Option Resource :=
  (arrayAppend r.operationsM c).map (fun m => { r with operationsM := m })

/-- `Resource::remove_operation`. -/
def Resource.remove_operation (r : Resource) (v : ShapeID) : Option Resource :=
  (arrayRemove r.operationsM v).map (fun m => { r with operationsM := m })

/-- `Resource::has_collection_operations`. -/
def Resource.has_collection_operations (r : Resource) : Option Bool :=
  arrayHas r.collectionOperationsM

/-- `Resource::collection_operations` iterator. -/
def Resource.collection_operations (r : Resource) : Option (List ShapeID) :=
  arrayIterate r.collectionOperationsM

/-- `Resource::add_collection_operation`. -/
def Resource.add_collection_operation (r : Resource) (v : ShapeID) : Option Resource :=
  (arrayAdd r.collectionOperationsM v).map (fun m => { r with collectionOperationsM := m })

/-- `Resource::append_collection_operations`. -/
def Resource.append_collection_operations (r : Resource) (c : List ShapeID) : Option Resource :=
  (arrayAppend r.collectionOperationsM c).map (fun m => { r with collectionOperationsM := m })

/-- `Resource::remove_collection_operation`. -/
def Resource.remove_collection_operation (r : Resource) (v : ShapeID) : Option Resource :=
  (arrayRemove r.collectionOperationsM v).map (fun m => { r with collectionOperationsM := m })

/-- `Resource::has_resources`. -/
def Resource.has_resources (r : Resource) : Option Bool := arrayHas r.resourcesM

/-- `Resource::resources` iterator. -/
def Resource.resources (r : Resource) : Option (List ShapeID) := arrayIterate r.resourcesM

/-- `Resource::add_resource`. -/
def Resource.add_resource (r : Resource) (v : ShapeID) : Option Resource :=
  (arrayAdd r.resourcesM v).map (fun m => { r with resourcesM := m })

/-- `Resource::append_resources`. -/
def Resource.append_resources (r : Resource) (c : List ShapeID) : Option Resource :=
  (arrayAppend r.resourcesM c).map (fun m => { r with resourcesM := m })

/-- `Resource::remove_resource`. -/
def Resource.remove_resource (r : Resource) (v : ShapeID) : Option Resource :=
  (arrayRemove r.resourcesM v).map (fun m => { r with resourcesM := m })

/-! ### Variant invariants and reachable states (for the implicit invariant claim) -/

/-- The member holds no value or a `String` (declared variant of `Service.version`). -/
def Member.isOptStr (m : Member) : Prop :=
  m.value = none ∨ ∃ s, m.value = some (NodeValue.str s)

/-- The member holds no value or a `ShapeID` (declared variant of the
`optional_member!` members). -/
def Member.isOptRef (m : Member) : Prop :=
  m.value = none ∨ ∃ id, m.value = some (NodeValue.shapeID id)

/-- The member holds an `Array` whose elements are all `ShapeID`s (declared
variant of the `array_member!` members). -/
def Member.isRefArray (m : Member) : Prop :=
  ∃ ids : List ShapeID, m.value = some (NodeValue.array (ids.map NodeValue.shapeID))

/-- The member holds an `Object` whose values are all `ShapeID`s (declared
variant of `Resource.identifiers`). -/
def Member.isRefObject (m : Member) : Prop :=
  ∃ ps : List (Identifier × ShapeID),
    m.value = some (NodeValue.object (ps.map (fun p => (p.1, NodeValue.shapeID p.2))))

/-- Every `Service` member holds its declared variant. -/
def Service.Inv (s : Service) : Prop :=
  s.versionM.isOptStr ∧ s.operationsM.isRefArray ∧ s.resourcesM.isRefArray

/-- No `Service` accessor hits an `invalid_value_variant` branch (`version`
may still hit its `unwrap` panic when the member was never set, which is the
required-scalar precondition, not a variant fault). -/
def Service.NoFatal (s : Service) : Prop :=
  (s.versionM.value.isSome → s.version.isSome) ∧
  s.has_operations.isSome ∧ s.operations.isSome ∧
  (∀ v, (s.add_operation v).isSome) ∧ (∀ c, (s.append_operations c).isSome) ∧
  (∀ v, (s.remove_operation v).isSome) ∧
  s.has_resources.isSome ∧ s.resources.isSome ∧
  (∀ v, (s.add_resource v).isSome) ∧ (∀ c, (s.append_resources c).isSome) ∧
  (∀ v, (s.remove_resource v).isSome)

/-- The states a `Service` can reach from `default` through the public
accessors (fallible ones stepping only when they return a value). -/
inductive Service.Reachable : Service → Prop where
  | dflt : Service.Reachable Service.default
  | set_version (s : Service) (v : String) :
      Service.Reachable s → Service.Reachable (s.set_version v)
  | add_operation (s : Service) (v : ShapeID) (s' : Service) :
      Service.Reachable s → s.add_operation v = some s' → Service.Reachable s'
  | append_operations (s : Service) (c : List ShapeID) (s' : Service) :
      Service.Reachable s → s.append_operations c = some s' → Service.Reachable s'
  | remove_operation (s : Service) (v : ShapeID) (s' : Service) :
      Service.Reachable s → s.remove_operation v = some s' → Service.Reachable s'
  | add_resource (s : Service) (v : ShapeID) (s' : Service) :
      Service.Reachable s → s.add_resource v = some s' → Service.Reachable s'
  | append_resources (s : Service) (c : List ShapeID) (s' : Service) :
      Service.Reachable s → s.append_resources c = some s' → Service.Reachable s'
  | remove_resource (s : Service) (v : ShapeID) (s' : Service) :
      Service.Reachable s → s.remove_resource v = some s' → Service.Reachable s'

/-- Every `Operation` member holds its declared variant. -/
def Operation.Inv (o : Operation) : Prop :=
  o.inputM.isOptRef ∧ o.outputM.isOptRef ∧ o.errorsM.isRefArray

/-- No `Operation` accessor hits an `invalid_value_variant` branch. -/
def Operation.NoFatal (o : Operation) : Prop :=
  o.input.isSome ∧ o.output.isSome ∧
  o.has_errors.isSome ∧ o.errors.isSome ∧
  (∀ v, (o.add_error v).isSome) ∧ (∀ c, (o.append_errors c).isSome) ∧
  (∀ v, (o.remove_error v).isSome)

/-- The states an `Operation` can reach from `default` through the public
accessors. -/
inductive Operation.Reachable : Operation → Prop where
  | dflt : Operation.Reachable Operation.default
  | set_input (o : Operation) (v : ShapeID) :
      Operation.Reachable o → Operation.Reachable (o.set_input v)
  | unset_input (o : Operation) :
      Operation.Reachable o → Operation.Reachable o.unset_input
  | set_output (o : Operation) (v : ShapeID) :
      Operation.Reachable o → Operation.Reachable (o.set_output v)
  | unset_output (o : Operation) :
      Operation.Reachable o → Operation.Reachable o.unset_output
  | add_error (o : Operation) (v : ShapeID) (o' : Operation) :
      Operation.Reachable o → o.add_error v = some o' → Operation.Reachable o'
  | append_errors (o : Operation) (c : List ShapeID) (o' : Operation) :
      Operation.Reachable o → o.append_errors c = some o' → Operation.Reachable o'
  | remove_error (o : Operation) (v : ShapeID) (o' : Operation) :
      Operation.Reachable o → o.remove_error v = some o' → Operation.Reachable o'

/-- Every `Resource` member holds its declared variant. -/
def Resource.Inv (r : Resource) : Prop :=
  r.identifiersM.isRefObject ∧
  r.createM.isOptRef ∧ r.putM.isOptRef ∧ r.readM.isOptRef ∧
  r.updateM.isOptRef ∧ r.deleteM.isOptRef ∧ r.listM.isOptRef ∧
  r.operationsM.isRefArray ∧ r.collectionOperationsM.isRefArray ∧
  r.resourcesM.isRefArray

/-- No `Resource` accessor hits an `invalid_value_variant` branch. -/
def Resource.NoFatal (r : Resource) : Prop :=
  r.has_identifiers.isSome ∧ r.identifiers.isSome ∧
  (∀ id sh, (r.add_identifier id sh).isSome) ∧ (∀ id, (r.remove_identifier id).isSome) ∧
  r.create.isSome ∧ r.put.isSome ∧ r.read.isSome ∧
  r.update.isSome ∧ r.delete.isSome ∧ r.list.isSome ∧
  r.has_operations.isSome ∧ r.operations.isSome ∧
  (∀ v, (r.add_operation v).isSome) ∧ (∀ c, (r.append_operations c).isSome) ∧
  (∀ v, (r.remove_operation v).isSome) ∧
  r.has_collection_operations.isSome ∧ r.collection_operations.isSome ∧
  (∀ v, (r.add_collection_operation v).isSome) ∧
  (∀ c, (r.append_collection_operations c).isSome) ∧
  (∀ v, (r.remove_collection_operation v).isSome) ∧
  r.has_resources.isSome ∧ r.resources.isSome ∧
  (∀ v, (r.add_resource v).isSome) ∧ (∀ c, (r.append_resources c).isSome) ∧
  (∀ v, (r.remove_resource v).isSome)

/-- The states a `Resource` can reach from `default` through the public
accessors. -/
inductive Resource.Reachable : Resource → Prop where
  | dflt : Resource.Reachable Resource.default
  | add_identifier (r : Resource) (id : Identifier) (sh : ShapeID) (r' : Resource) :
      Resource.Reachable r → r.add_identifier id sh = some r' → Resource.Reachable r'
  | remove_identifier (r : Resource) (id : Identifier) (r' : Resource) :
      Resource.Reachable r → r.remove_identifier id = some r' → Resource.Reachable r'
  | set_create (r : Resource) (v : ShapeID) :
      Resource.Reachable r → Resource.Reachable (r.set_create v)
  | unset_create (r : Resource) :
      Resource.Reachable r → Resource.Reachable r.unset_create
  | set_put (r : Resource) (v : ShapeID) :
      Resource.Reachable r → Resource.Reachable (r.set_put v)
  | unset_put (r : Resource) :
      Resource.Reachable r → Resource.Reachable r.unset_put
  | set_read (r : Resource) (v : ShapeID) :
      Resource.Reachable r → Resource.Reachable (r.set_read v)
  | unset_read (r : Resource) :
      Resource.Reachable r → Resource.Reachable r.unset_read
  | set_update (r : Resource) (v : ShapeID) :
      Resource.Reachable r → Resource.Reachable (r.set_update v)
  | unset_update (r : Resource) :
      Resource.Reachable r → Resource.Reachable r.unset_update
  | set_delete (r : Resource) (v : ShapeID) :
      Resource.Reachable r → Resource.Reachable (r.set_delete v)
  | unset_delete (r : Resource) :
      Resource.Reachable r → Resource.Reachable r.unset_delete
  | set_list (r : Resource) (v : ShapeID) :
      Resource.Reachable r → Resource.Reachable (r.set_list v)
  | unset_list (r : Resource) :
      Resource.Reachable r → Resource.Reachable r.unset_list
  | add_operation (r : Resource) (v : ShapeID) (r' : Resource) :
      Resource.Reachable r → r.add_operation v = some r' → Resource.Reachable r'
  | append_operations (r : Resource) (c : List ShapeID) (r' : Resource) :
      Resource.Reachable r → r.append_operations c = some r' → Resource.Reachable r'
  | remove_operation (r : Resource) (v : ShapeID) (r' : Resource) :
      Resource.Reachable r → r.remove_operation v = some r' → Resource.Reachable r'
  | add_collection_operation (r : Resource) (v : ShapeID) (r' : Resource) :
      Resource.Reachable r → r.add_collection_operation v = some r' → Resource.Reachable r'
  | append_collection_operations (r : Resource) (c : List ShapeID) (r' : Resource) :
      Resource.Reachable r → r.append_collection_operations c = some r' →
        Resource.Reachable r'
  | remove_collection_operation (r : Resource) (v : ShapeID) (r' : Resource) :
      Resource.Reachable r → r.remove_collection_operation v = some r' →
        Resource.Reachable r'
  | add_resource (r : Resource) (v : ShapeID) (r' : Resource) :
      Resource.Reachable r → r.add_resource v = some r' → Resource.Reachable r'
  | append_resources (r : Resource) (c : List ShapeID) (r' : Resource) :
      Resource.Reachable r → r.append_resources c = some r' → Resource.Reachable r'
  | remove_resource (r : Resource) (v : ShapeID) (r' : Resource) :
      Resource.Reachable r → r.remove_resource v = some r' → Resource.Reachable r'


/-- The iterator mapping succeeds on a list of `ShapeID` elements. -/
theorem shapeIDs_map (ids : List ShapeID) :
    shapeIDs (ids.map NodeValue.shapeID) = some ids := by
  induction ids with
  | nil => rfl
  | cons a rest ih => simp [shapeIDs, ih]

/-- The iterator mapping distributes over list append. -/
theorem shapeIDs_append : ∀ {l1 l2 : List NodeValue} {r1 r2 : List ShapeID},
    shapeIDs l1 = some r1 → shapeIDs l2 = some r2 →
    shapeIDs (l1 ++ l2) = some (r1 ++ r2) := by
  intro l1
  induction l1 with
  | nil =>
    intro l2 r1 r2 h1 h2
    simp [shapeIDs] at h1
    subst h1
    simpa using h2
  | cons v rest ih =>
    intro l2 r1 r2 h1 h2
    cases v with
    | shapeID id =>
      simp [shapeIDs] at h1 ⊢
      obtain ⟨t, ht, rfl⟩ := h1
      exact ⟨t ++ r2, ih ht h2, rfl⟩
    | str s => simp [shapeIDs] at h1
    | array a => simp [shapeIDs] at h1
    | object o => simp [shapeIDs] at h1

/-- The `retain` predicate of `$remove_fn`, applied to `ShapeID` elements,
filters by the payload. -/
theorem filter_shapeID_map (ids : List ShapeID) (v : ShapeID) :
    (ids.map NodeValue.shapeID).filter
      (fun x => match x with | NodeValue.shapeID y => y == v | _ => false)
      = (ids.filter (fun y => y == v)).map NodeValue.shapeID := by
  induction ids with
  | nil => rfl
  | cons a rest ih =>
    by_cases h : a == v
    · simp [List.filter_cons, h, ih]
    · simp only [List.map_cons, List.filter_cons]
      simp [h, ih]

/-- The identifiers iterator mapping succeeds on `ShapeID`-valued entries. -/
theorem identifierPairs_map (ps : List (Identifier × ShapeID)) :
    identifierPairs (ps.map (fun p => (p.1, NodeValue.shapeID p.2))) = some ps := by
  induction ps with
  | nil => rfl
  | cons p rest ih => simp [identifierPairs, ih]
/-- Value of `$add_fn` on a well-formed array member. -/
theorem arrayAdd_eq {m : Member} {ids : List ShapeID}
    (h : m.value = some (NodeValue.array (ids.map NodeValue.shapeID))) (v : ShapeID) :
    arrayAdd m v
      = some { m with value := some (NodeValue.array ((ids ++ [v]).map NodeValue.shapeID)) } := by
  simp [arrayAdd, h]

/-- Value of `$append_fn` on a well-formed array member. -/
theorem arrayAppend_eq {m : Member} {ids : List ShapeID}
    (h : m.value = some (NodeValue.array (ids.map NodeValue.shapeID))) (c : List ShapeID) :
    arrayAppend m c
      = some { m with value := some (NodeValue.array ((ids ++ c).map NodeValue.shapeID)) } := by
  simp [arrayAppend, h]

/-- Value of `$remove_fn` on a well-formed array member: it keeps exactly the
elements equal to the argument. -/
theorem arrayRemove_eq {m : Member} {ids : List ShapeID}
    (h : m.value = some (NodeValue.array (ids.map NodeValue.shapeID))) (v : ShapeID) :
    arrayRemove m v
      = some { m with value := some (NodeValue.array ((ids.filter (fun y => y == v)).map NodeValue.shapeID)) } := by
  simp [arrayRemove, h, filter_shapeID_map]

/-- `$has_fn` does not hit a fatal branch on a well-formed array member. -/
theorem arrayHas_isSome {m : Member} (h : m.isRefArray) : (arrayHas m).isSome := by
  obtain ⟨ids, hv⟩ := h
  simp [arrayHas, hv]

/-- `$collection` iteration on a well-formed array member yields its payloads. -/
theorem arrayIterate_eq {m : Member} {ids : List ShapeID}
    (h : m.value = some (NodeValue.array (ids.map NodeValue.shapeID))) :
    arrayIterate m = some ids := by
  simp [arrayIterate, h, shapeIDs_map]

/-- The optional getter does not hit a fatal branch on a well-formed member. -/
theorem optGet_isSome {m : Member} (h : m.isOptRef) : (optGet m).isSome := by
  rcases h with h | ⟨id, h⟩ <;> simp [optGet, h]

/-- Inserting a `ShapeID` value keeps the object in `ShapeID`-valued form. -/
theorem mapInsert_form (ps : List (Identifier × ShapeID)) (id : Identifier) (sh : ShapeID) :
    ∃ ps' : List (Identifier × ShapeID),
      mapInsert (ps.map (fun p => (p.1, NodeValue.shapeID p.2))) id (NodeValue.shapeID sh)
        = ps'.map (fun p => (p.1, NodeValue.shapeID p.2)) := by
  unfold mapInsert
  split
  · refine ⟨ps.map (fun p => if p.1 = id then (id, sh) else p), ?_⟩
    induction ps with
    | nil => rfl
    | cons p rest ih =>
      by_cases h : p.1 = id <;> simp [h] <;>
        (intro a b _; by_cases hab : a = id <;> simp [hab])
  · exact ⟨ps ++ [(id, sh)], by simp⟩

/-- Filtering object entries by key commutes with the `ShapeID` wrapping. -/
theorem filterKey_map (ps : List (Identifier × ShapeID)) (id : Identifier) :
    (ps.map (fun p => (p.1, NodeValue.shapeID p.2))).filter (fun p => p.1 == id)
      = (ps.filter (fun p => p.1 == id)).map (fun p => (p.1, NodeValue.shapeID p.2)) := by
  induction ps with
  | nil => rfl
  | cons p rest ih =>
    by_cases h : p.1 == id
    · simp [List.filter_cons, h, ih]
    · simp only [List.map_cons, List.filter_cons]
      simp [h, ih]

/-- `$add_fn` preserves the array-of-references variant. -/
theorem arrayAdd_isRefArray {m m' : Member} {v : ShapeID} (h : m.isRefArray)
    (heq : arrayAdd m v = some m') : m'.isRefArray := by
  obtain ⟨ids, hv⟩ := h
  rw [arrayAdd_eq hv] at heq
  cases heq
  exact ⟨ids ++ [v], rfl⟩

/-- `$append_fn` preserves the array-of-references variant. -/
theorem arrayAppend_isRefArray {m m' : Member} {c : List ShapeID} (h : m.isRefArray)
    (heq : arrayAppend m c = some m') : m'.isRefArray := by
  obtain ⟨ids, hv⟩ := h
  rw [arrayAppend_eq hv] at heq
  cases heq
  exact ⟨ids ++ c, rfl⟩

/-- `$remove_fn` preserves the array-of-references variant. -/
theorem arrayRemove_isRefArray {m m' : Member} {v : ShapeID} (h : m.isRefArray)
    (heq : arrayRemove m v = some m') : m'.isRefArray := by
  obtain ⟨ids, hv⟩ := h
  rw [arrayRemove_eq hv] at heq
  cases heq
  exact ⟨ids.filter (fun y => y == v), rfl⟩

/-- Every reachable `Service` state satisfies the variant invariant. -/
theorem Service.reachable_inv_service {s : Service} (h : Service.Reachable s) : s.Inv := by
  induction h with
  | dflt => exact ⟨Or.inl rfl, ⟨[], rfl⟩, ⟨[], rfl⟩⟩
  | set_version s v _ ih =>
    obtain ⟨_, hops, hres⟩ := ih
    exact ⟨Or.inr ⟨v, rfl⟩, hops, hres⟩
  | add_operation s v s' _ heq ih =>
    obtain ⟨hver, hops, hres⟩ := ih
    simp only [Service.add_operation] at heq
    obtain ⟨m, hm, rfl⟩ := Option.map_eq_some'.mp heq
    exact ⟨hver, arrayAdd_isRefArray hops hm, hres⟩
  | append_operations s c s' _ heq ih =>
    obtain ⟨hver, hops, hres⟩ := ih
    simp only [Service.append_operations] at heq
    obtain ⟨m, hm, rfl⟩ := Option.map_eq_some'.mp heq
    exact ⟨hver, arrayAppend_isRefArray hops hm, hres⟩
  | remove_operation s v s' _ heq ih =>
    obtain ⟨hver, hops, hres⟩ := ih
    simp only [Service.remove_operation] at heq
    obtain ⟨m, hm, rfl⟩ := Option.map_eq_some'.mp heq
    exact ⟨hver, arrayRemove_isRefArray hops hm, hres⟩
  | add_resource s v s' _ heq ih =>
    obtain ⟨hver, hops, hres⟩ := ih
    simp only [Service.add_resource] at heq
    obtain ⟨m, hm, rfl⟩ := Option.map_eq_some'.mp heq
    exact ⟨hver, hops, arrayAdd_isRefArray hres hm⟩
  | append_resources s c s' _ heq ih =>
    obtain ⟨hver, hops, hres⟩ := ih
    simp only [Service.append_resources] at heq
    obtain ⟨m, hm, rfl⟩ := Option.map_eq_some'.mp heq
    exact ⟨hver, hops, arrayAppend_isRefArray hres hm⟩
  | remove_resource s v s' _ heq ih =>
    obtain ⟨hver, hops, hres⟩ := ih
    simp only [Service.remove_resource] at heq
    obtain ⟨m, hm, rfl⟩ := Option.map_eq_some'.mp heq
    exact ⟨hver, hops, arrayRemove_isRefArray hres hm⟩

/-- The variant invariant keeps every `Service` accessor off its fatal branches. -/
theorem Service.inv_noFatal_service {s : Service} (h : s.Inv) : s.NoFatal := by
  obtain ⟨hver, ⟨ops, hops⟩, ⟨rds, hres⟩⟩ := h
  refine ⟨?_, ?_, ?_, ?_, ?_, ?_, ?_, ?_, ?_, ?_, ?_⟩
  · intro hsome
    rcases hver with hn | ⟨t, ht⟩
    · rw [hn] at hsome; cases hsome
    · simp [Service.version, ht]
  · simp [Service.has_operations, arrayHas, hops]
  · simp [Service.operations, arrayIterate_eq hops]
  · intro v; simp [Service.add_operation, arrayAdd_eq hops]
  · intro c; simp [Service.append_operations, arrayAppend_eq hops]
  · intro v; simp [Service.remove_operation, arrayRemove_eq hops]
  · simp [Service.has_resources, arrayHas, hres]
  · simp [Service.resources, arrayIterate_eq hres]
  · intro v; simp [Service.add_resource, arrayAdd_eq hres]
  · intro c; simp [Service.append_resources, arrayAppend_eq hres]
  · intro v; simp [Service.remove_resource, arrayRemove_eq hres]
/-- Every reachable `Operation` state satisfies the variant invariant. -/
theorem Operation.reachable_inv_operation {o : Operation} (h : Operation.Reachable o) : o.Inv := by
  induction h with
  | dflt => exact ⟨Or.inl rfl, Or.inl rfl, ⟨[], rfl⟩⟩
  | set_input o v _ ih =>
    obtain ⟨_, hout, herr⟩ := ih
    exact ⟨Or.inr ⟨v, rfl⟩, hout, herr⟩
  | unset_input o _ ih =>
    obtain ⟨_, hout, herr⟩ := ih
    exact ⟨Or.inl rfl, hout, herr⟩
  | set_output o v _ ih =>
    obtain ⟨hin, _, herr⟩ := ih
    exact ⟨hin, Or.inr ⟨v, rfl⟩, herr⟩
  | unset_output o _ ih =>
    obtain ⟨hin, _, herr⟩ := ih
    exact ⟨hin, Or.inl rfl, herr⟩
  | add_error o v o' _ heq ih =>
    obtain ⟨hin, hout, herr⟩ := ih
    simp only [Operation.add_error] at heq
    obtain ⟨m, hm, rfl⟩ := Option.map_eq_some'.mp heq
    exact ⟨hin, hout, arrayAdd_isRefArray herr hm⟩
  | append_errors o c o' _ heq ih =>
    obtain ⟨hin, hout, herr⟩ := ih
    simp only [Operation.append_errors] at heq
    obtain ⟨m, hm, rfl⟩ := Option.map_eq_some'.mp heq
    exact ⟨hin, hout, arrayAppend_isRefArray herr hm⟩
  | remove_error o v o' _ heq ih =>
    obtain ⟨hin, hout, herr⟩ := ih
    simp only [Operation.remove_error] at heq
    obtain ⟨m, hm, rfl⟩ := Option.map_eq_some'.mp heq
    exact ⟨hin, hout, arrayRemove_isRefArray herr hm⟩

/-- The variant invariant keeps every `Operation` accessor off its fatal branches. -/
theorem Operation.inv_noFatal_operation {o : Operation} (h : o.Inv) : o.NoFatal := by
  obtain ⟨hin, hout, ⟨errs, herr⟩⟩ := h
  refine ⟨?_, ?_, ?_, ?_, ?_, ?_, ?_⟩
  · exact optGet_isSome hin
  · exact optGet_isSome hout
  · simp [Operation.has_errors, arrayHas, herr]
  · simp [Operation.errors, arrayIterate_eq herr]
  · intro v; simp [Operation.add_error, arrayAdd_eq herr]
  · intro c; simp [Operation.append_errors, arrayAppend_eq herr]
  · intro v; simp [Operation.remove_error, arrayRemove_eq herr]
/-- Every reachable `Resource` state satisfies the variant invariant. -/
theorem Resource.reachable_inv_resource {r : Resource} (h : Resource.Reachable r) : r.Inv := by
  induction h with
  | dflt =>
    exact ⟨⟨[], rfl⟩, Or.inl rfl, Or.inl rfl, Or.inl rfl, Or.inl rfl, Or.inl rfl,
      Or.inl rfl, ⟨[], rfl⟩, ⟨[], rfl⟩, ⟨[], rfl⟩⟩
  | add_identifier r id sh r' _ heq ih =>
    obtain ⟨⟨ps, hv⟩, hc, hp, hrd, hu, hd, hl, hops, hcol, hres⟩ := ih
    obtain ⟨ps', hps⟩ := mapInsert_form ps id sh
    simp only [Resource.add_identifier, hv, Option.some.injEq] at heq
    subst heq
    exact ⟨⟨ps', by simp [hps]⟩, hc, hp, hrd, hu, hd, hl, hops, hcol, hres⟩
  | remove_identifier r id r' _ heq ih =>
    obtain ⟨⟨ps, hv⟩, hc, hp, hrd, hu, hd, hl, hops, hcol, hres⟩ := ih
    simp only [Resource.remove_identifier, hv, Option.some.injEq] at heq
    subst heq
    exact ⟨⟨ps.filter (fun p => p.1 == id), by simp [filterKey_map]⟩,
      hc, hp, hrd, hu, hd, hl, hops, hcol, hres⟩
  | set_create r v _ ih =>
    obtain ⟨hid, _, hp, hrd, hu, hd, hl, hops, hcol, hres⟩ := ih
    exact ⟨hid, Or.inr ⟨v, rfl⟩, hp, hrd, hu, hd, hl, hops, hcol, hres⟩
  | unset_create r _ ih =>
    obtain ⟨hid, _, hp, hrd, hu, hd, hl, hops, hcol, hres⟩ := ih
    exact ⟨hid, Or.inl rfl, hp, hrd, hu, hd, hl, hops, hcol, hres⟩
  | set_put r v _ ih =>
    obtain ⟨hid, hc, _, hrd, hu, hd, hl, hops, hcol, hres⟩ := ih
    exact ⟨hid, hc, Or.inr ⟨v, rfl⟩, hrd, hu, hd, hl, hops, hcol, hres⟩
  | unset_put r _ ih =>
    obtain ⟨hid, hc, _, hrd, hu, hd, hl, hops, hcol, hres⟩ := ih
    exact ⟨hid, hc, Or.inl rfl, hrd, hu, hd, hl, hops, hcol, hres⟩
  | set_read r v _ ih =>
    obtain ⟨hid, hc, hp, _, hu, hd, hl, hops, hcol, hres⟩ := ih
    exact ⟨hid, hc, hp, Or.inr ⟨v, rfl⟩, hu, hd, hl, hops, hcol, hres⟩
  | unset_read r _ ih =>
    obtain ⟨hid, hc, hp, _, hu, hd, hl, hops, hcol, hres⟩ := ih
    exact ⟨hid, hc, hp, Or.inl rfl, hu, hd, hl, hops, hcol, hres⟩
  | set_update r v _ ih =>
    obtain ⟨hid, hc, hp, hrd, _, hd, hl, hops, hcol, hres⟩ := ih
    exact ⟨hid, hc, hp, hrd, Or.inr ⟨v, rfl⟩, hd, hl, hops, hcol, hres⟩
  | unset_update r _ ih =>
    obtain ⟨hid, hc, hp, hrd, _, hd, hl, hops, hcol, hres⟩ := ih
    exact ⟨hid, hc, hp, hrd, Or.inl rfl, hd, hl, hops, hcol, hres⟩
  | set_delete r v _ ih =>
    obtain ⟨hid, hc, hp, hrd, hu, _, hl, hops, hcol, hres⟩ := ih
    exact ⟨hid, hc, hp, hrd, hu, Or.inr ⟨v, rfl⟩, hl, hops, hcol, hres⟩
  | unset_delete r _ ih =>
    obtain ⟨hid, hc, hp, hrd, hu, _, hl, hops, hcol, hres⟩ := ih
    exact ⟨hid, hc, hp, hrd, hu, Or.inl rfl, hl, hops, hcol, hres⟩
  | set_list r v _ ih =>
    obtain ⟨hid, hc, hp, hrd, hu, hd, _, hops, hcol, hres⟩ := ih
    exact ⟨hid, hc, hp, hrd, hu, hd, Or.inr ⟨v, rfl⟩, hops, hcol, hres⟩
  | unset_list r _ ih =>
    obtain ⟨hid, hc, hp, hrd, hu, hd, _, hops, hcol, hres⟩ := ih
    exact ⟨hid, hc, hp, hrd, hu, hd, Or.inl rfl, hops, hcol, hres⟩
  | add_operation r v r' _ heq ih =>
    obtain ⟨hid, hc, hp, hrd, hu, hd, hl, hops, hcol, hres⟩ := ih
    simp only [Resource.add_operation] at heq
    obtain ⟨m, hm, rfl⟩ := Option.map_eq_some'.mp heq
    exact ⟨hid, hc, hp, hrd, hu, hd, hl, arrayAdd_isRefArray hops hm, hcol, hres⟩
  | append_operations r c r' _ heq ih =>
    obtain ⟨hid, hc, hp, hrd, hu, hd, hl, hops, hcol, hres⟩ := ih
    simp only [Resource.append_operations] at heq
    obtain ⟨m, hm, rfl⟩ := Option.map_eq_some'.mp heq
    exact ⟨hid, hc, hp, hrd, hu, hd, hl, arrayAppend_isRefArray hops hm, hcol, hres⟩
  | remove_operation r v r' _ heq ih =>
    obtain ⟨hid, hc, hp, hrd, hu, hd, hl, hops, hcol, hres⟩ := ih
    simp only [Resource.remove_operation] at heq
    obtain ⟨m, hm, rfl⟩ := Option.map_eq_some'.mp heq
    exact ⟨hid, hc, hp, hrd, hu, hd, hl, arrayRemove_isRefArray hops hm, hcol, hres⟩
  | add_collection_operation r v r' _ heq ih =>
    obtain ⟨hid, hc, hp, hrd, hu, hd, hl, hops, hcol, hres⟩ := ih
    simp only [Resource.add_collection_operation] at heq
    obtain ⟨m, hm, rfl⟩ := Option.map_eq_some'.mp heq
    exact ⟨hid, hc, hp, hrd, hu, hd, hl, hops, arrayAdd_isRefArray hcol hm, hres⟩
  | append_collection_operations r c r' _ heq ih =>
    obtain ⟨hid, hc, hp, hrd, hu, hd, hl, hops, hcol, hres⟩ := ih
    simp only [Resource.append_collection_operations] at heq
    obtain ⟨m, hm, rfl⟩ := Option.map_eq_some'.mp heq
    exact ⟨hid, hc, hp, hrd, hu, hd, hl, hops, arrayAppend_isRefArray hcol hm, hres⟩
  | remove_collection_operation r v r' _ heq ih =>
    obtain ⟨hid, hc, hp, hrd, hu, hd, hl, hops, hcol, hres⟩ := ih
    simp only [Resource.remove_collection_operation] at heq
    obtain ⟨m, hm, rfl⟩ := Option.map_eq_some'.mp heq
    exact ⟨hid, hc, hp, hrd, hu, hd, hl, hops, arrayRemove_isRefArray hcol hm, hres⟩
  | add_resource r v r' _ heq ih =>
    obtain ⟨hid, hc, hp, hrd, hu, hd, hl, hops, hcol, hres⟩ := ih
    simp only [Resource.add_resource] at heq
    obtain ⟨m, hm, rfl⟩ := Option.map_eq_some'.mp heq
    exact ⟨hid, hc, hp, hrd, hu, hd, hl, hops, hcol, arrayAdd_isRefArray hres hm⟩
  | append_resources r c r' _ heq ih =>
    obtain ⟨hid, hc, hp, hrd, hu, hd, hl, hops, hcol, hres⟩ := ih
    simp only [Resource.append_resources] at heq
    obtain ⟨m, hm, rfl⟩ := Option.map_eq_some'.mp heq
    exact ⟨hid, hc, hp, hrd, hu, hd, hl, hops, hcol, arrayAppend_isRefArray hres hm⟩
  | remove_resource r v r' _ heq ih =>
    obtain ⟨hid, hc, hp, hrd, hu, hd, hl, hops, hcol, hres⟩ := ih
    simp only [Resource.remove_resource] at heq
    obtain ⟨m, hm, rfl⟩ := Option.map_eq_some'.mp heq
    exact ⟨hid, hc, hp, hrd, hu, hd, hl, hops, hcol, arrayRemove_isRefArray hres hm⟩

/-- The variant invariant keeps every `Resource` accessor off its fatal branches. -/
theorem Resource.inv_noFatal_resource {r : Resource} (h : r.Inv) : r.NoFatal := by
  obtain ⟨⟨ps, hv⟩, hc, hp, hrd, hu, hd, hl, ⟨ops, hops⟩, ⟨cops, hcol⟩, ⟨rds, hres⟩⟩ := h
  refine ⟨?_, ?_, ?_, ?_, ?_, ?_, ?_, ?_, ?_, ?_, ?_, ?_, ?_, ?_, ?_, ?_, ?_, ?_, ?_,
    ?_, ?_, ?_, ?_, ?_, ?_⟩
  · simp [Resource.has_identifiers, hv]
  · simp [Resource.identifiers, hv, identifierPairs_map]
  · intro id sh; simp [Resource.add_identifier, hv]
  · intro id; simp [Resource.remove_identifier, hv]
  · exact optGet_isSome hc
  · exact optGet_isSome hp
  · exact optGet_isSome hrd
  · exact optGet_isSome hu
  · exact optGet_isSome hd
  · exact optGet_isSome hl
  · simp [Resource.has_operations, arrayHas, hops]
  · simp [Resource.operations, arrayIterate_eq hops]
  · intro v; simp [Resource.add_operation, arrayAdd_eq hops]
  · intro c; simp [Resource.append_operations, arrayAppend_eq hops]
  · intro v; simp [Resource.remove_operation, arrayRemove_eq hops]
  · simp [Resource.has_collection_operations, arrayHas, hcol]
  · simp [Resource.collection_operations, arrayIterate_eq hcol]
  · intro v; simp [Resource.add_collection_operation, arrayAdd_eq hcol]
  · intro c; simp [Resource.append_collection_operations, arrayAppend_eq hcol]
  · intro v; simp [Resource.remove_collection_operation, arrayRemove_eq hcol]
  · simp [Resource.has_resources, arrayHas, hres]
  · simp [Resource.resources, arrayIterate_eq hres]
  · intro v; simp [Resource.add_resource, arrayAdd_eq hres]
  · intro c; simp [Resource.append_resources, arrayAppend_eq hres]
  · intro v; simp [Resource.remove_resource, arrayRemove_eq hres]
/-- Claim C1, evaluated at the failing input: the claim says that after
`add_error x; add_error y; add_error x; remove_error x` iteration yields
`[y]` (every element equal to `x` deleted, all others kept in order).  The
code's `retain(|v| v == &id_value)` keeps the matching elements instead, so
iteration yields `[x, x]` — the code contradicts its own doc comment
("Remove an element ...") and the claim. -/
theorem C1_remove_keeps_matching_elements :
    ((((Operation.default.add_error "x").bind (fun o => o.add_error "y")).bind
      (fun o => o.add_error "x")).bind (fun o => o.remove_error "x")).bind
      Operation.errors = some ["x", "x"] := by decide

/-- Claim C2, evaluated at the failing input: the claim says
`remove_identifier id` deletes only the entry with key `id` and keeps the
rest.  The code's `retain(|k, _| k == &key)` keeps exactly that entry and
deletes every other entry: removing `"a"` from `{a ↦ r1, b ↦ r2}` leaves
`[(a, r1)]` instead of `[(b, r2)]`. -/
theorem C2_remove_identifier_keeps_key :
    (((Resource.default.add_identifier "a" "r1").bind
      (fun r => r.add_identifier "b" "r2")).bind
      (fun r => r.remove_identifier "a")).bind Resource.identifiers
      = some [("a", "r1")] := by decide

/-- Claim C9: `Service.version` returns the stored text once `set_version`
has been called; on a default `Service` (version never set) it hits the
`unwrap` panic — a fatal precondition violation, embedded as `none`, never a
fallback value. -/
theorem C9_required_version :
    (Service.default.version = none) ∧
    (∀ (s : Service) (v : String), (s.set_version v).version = some v) :=
  ⟨rfl, fun _ _ => rfl⟩

/-- Claim C10: from a default-constructed `Service`, `Operation` or
`Resource`, every sequence of public accessor calls keeps each member's
declared variant (`Inv`), and under that invariant no accessor hits an
`invalid_value_variant` fatal branch (`NoFatal`). -/
theorem C10_variant_invariant_preserved :
    (∀ s, Service.Reachable s → Service.Inv s ∧ Service.NoFatal s) ∧
    (∀ o, Operation.Reachable o → Operation.Inv o ∧ Operation.NoFatal o) ∧
    (∀ r, Resource.Reachable r → Resource.Inv r ∧ Resource.NoFatal r) := by
  refine ⟨fun s hs => ?_, fun o ho => ?_, fun r hr => ?_⟩
  · have h := Service.reachable_inv_service hs
    exact ⟨h, Service.inv_noFatal_service h⟩
  · have h := Operation.reachable_inv_operation ho
    exact ⟨h, Operation.inv_noFatal_operation h⟩
  · have h := Resource.reachable_inv_resource hr
    exact ⟨h, Resource.inv_noFatal_resource h⟩

/-- Witness for claim C10 at the default-constructed shapes. -/
theorem C10_witness :
    (Service.Inv Service.default ∧ Service.NoFatal Service.default) ∧
    (Operation.Inv Operation.default ∧ Operation.NoFatal Operation.default) ∧
    (Resource.Inv Resource.default ∧ Resource.NoFatal Resource.default) :=
  ⟨C10_variant_invariant_preserved.1 Service.default Service.Reachable.dflt,
   C10_variant_invariant_preserved.2.1 Operation.default Operation.Reachable.dflt,
   C10_variant_invariant_preserved.2.2 Resource.default Resource.Reachable.dflt⟩
/-- Claim C3: on freshly default-constructed shapes, every collection and
keyed-mapping member is present and empty, and every optional-reference
member and `Service.version` are absent. -/
theorem C3_defaults_empty_or_absent :
    Service.default.operationsM.value = some (NodeValue.array []) ∧
    Service.default.resourcesM.value = some (NodeValue.array []) ∧
    Service.default.has_operations = some false ∧
    Service.default.operations = some [] ∧
    Service.default.has_resources = some false ∧
    Service.default.resources = some [] ∧
    Service.default.versionM.value = none ∧
    Operation.default.errorsM.value = some (NodeValue.array []) ∧
    Operation.default.has_errors = some false ∧
    Operation.default.errors = some [] ∧
    Operation.default.has_input = false ∧
    Operation.default.input = some none ∧
    Operation.default.has_output = false ∧
    Operation.default.output = some none ∧
    Resource.default.identifiersM.value = some (NodeValue.object []) ∧
    Resource.default.has_identifiers = some false ∧
    Resource.default.identifiers = some [] ∧
    Resource.default.has_create = false ∧ Resource.default.create = some none ∧
    Resource.default.has_put = false ∧ Resource.default.put = some none ∧
    Resource.default.has_read = false ∧ Resource.default.read = some none ∧
    Resource.default.has_update = false ∧ Resource.default.update = some none ∧
    Resource.default.has_delete = false ∧ Resource.default.delete = some none ∧
    Resource.default.has_list = false ∧ Resource.default.list = some none ∧
    Resource.default.operationsM.value = some (NodeValue.array []) ∧
    Resource.default.has_operations = some false ∧
    Resource.default.operations = some [] ∧
    Resource.default.collectionOperationsM.value = some (NodeValue.array []) ∧
    Resource.default.has_collection_operations = some false ∧
    Resource.default.collection_operations = some [] ∧
    Resource.default.resourcesM.value = some (NodeValue.array []) ∧
    Resource.default.has_resources = some false ∧
    Resource.default.resources = some [] := by
  repeat' apply And.intro
  all_goals rfl

/-- Claim C4: for any shape state, every scalar and optional-reference
setter followed by the getter returns the value just set, and the
corresponding `has` returns `true` afterwards. -/
theorem C4_set_get_roundtrip :
    ∀ (s : Service) (o : Operation) (r : Resource) (x : ShapeID) (t : String),
      ((s.set_version t).version = some t) ∧
      ((o.set_input x).input = some (some x)) ∧ ((o.set_input x).has_input = true) ∧
      ((o.set_output x).output = some (some x)) ∧ ((o.set_output x).has_output = true) ∧
      ((r.set_create x).create = some (some x)) ∧ ((r.set_create x).has_create = true) ∧
      ((r.set_put x).put = some (some x)) ∧ ((r.set_put x).has_put = true) ∧
      ((r.set_read x).read = some (some x)) ∧ ((r.set_read x).has_read = true) ∧
      ((r.set_update x).update = some (some x)) ∧ ((r.set_update x).has_update = true) ∧
      ((r.set_delete x).delete = some (some x)) ∧ ((r.set_delete x).has_delete = true) ∧
      ((r.set_list x).list = some (some x)) ∧ ((r.set_list x).has_list = true) := by
  intro s o r x t
  repeat' apply And.intro
  all_goals rfl

/-- Claim C5: unsetting an optional-reference member twice gives the same
state as unsetting once, and `has` is `false` afterwards. -/
theorem C5_unset_idempotent :
    ∀ (o : Operation) (r : Resource),
      (o.unset_input.unset_input = o.unset_input) ∧
      (o.unset_input.unset_input.has_input = false) ∧
      (o.unset_output.unset_output = o.unset_output) ∧
      (o.unset_output.unset_output.has_output = false) ∧
      (r.unset_create.unset_create = r.unset_create) ∧
      (r.unset_create.unset_create.has_create = false) ∧
      (r.unset_put.unset_put = r.unset_put) ∧
      (r.unset_put.unset_put.has_put = false) ∧
      (r.unset_read.unset_read = r.unset_read) ∧
      (r.unset_read.unset_read.has_read = false) ∧
      (r.unset_update.unset_update = r.unset_update) ∧
      (r.unset_update.unset_update.has_update = false) ∧
      (r.unset_delete.unset_delete = r.unset_delete) ∧
      (r.unset_delete.unset_delete.has_delete = false) ∧
      (r.unset_list.unset_list = r.unset_list) ∧
      (r.unset_list.unset_list.has_list = false) := by
  intro o r
  repeat' apply And.intro
  all_goals rfl
/-- Claim C6: on any collection member whose iteration yields `l`, `add x`
succeeds and appends `x` at the end (duplicates permitted, existing elements
and order untouched); in particular `add a; add b` on a default `Service`
iterates to `[a, b]`. -/
theorem C6_add_appends_preserving_order :
    (∀ (m : Member) (l : List ShapeID) (x : ShapeID), arrayIterate m = some l →
      (arrayAdd m x).isSome ∧ (arrayAdd m x).bind arrayIterate = some (l ++ [x])) ∧
    (∀ a b : ShapeID,
      ((Service.default.add_operation a).bind (fun s => s.add_operation b)).bind
        Service.operations = some [a, b]) := by
  constructor
  · intro m l x h
    cases hv : m.value with
    | none => simp [arrayIterate, hv] at h
    | some v =>
      cases v with
      | str s => simp [arrayIterate, hv] at h
      | shapeID i => simp [arrayIterate, hv] at h
      | object ps => simp [arrayIterate, hv] at h
      | array vs =>
        simp only [arrayIterate, hv] at h
        constructor
        · simp [arrayAdd, hv]
        · have h2 : shapeIDs [NodeValue.shapeID x] = some [x] := by simp [shapeIDs]
          simp [arrayAdd, hv, arrayIterate, shapeIDs_append h h2]
  · intro a b
    rfl

/-- Witness for claim C6 on an empty collection member. -/
theorem C6_witness :
    (arrayAdd (Member.with_value "errors" (NodeValue.array [])) "x").isSome ∧
    (arrayAdd (Member.with_value "errors" (NodeValue.array [])) "x").bind arrayIterate
      = some ([] ++ ["x"]) :=
  C6_add_appends_preserving_order.1 (Member.with_value "errors" (NodeValue.array [])) [] "x" rfl

/-- Claim C7: on any array-backed member state, `append xs` produces the
same result as folding `add` over `xs` in order. -/
theorem C7_append_eq_repeated_add :
    ∀ (m : Member) (vs : List NodeValue), m.value = some (NodeValue.array vs) →
      ∀ xs : List ShapeID, arrayAppend m xs = List.foldlM arrayAdd m xs := by
  intro m vs h xs
  induction xs generalizing m vs with
  | nil =>
    cases m with
    | mk nm vl =>
      dsimp only at h
      subst h
      simp [arrayAppend, List.foldlM_nil]
  | cons x rest ih =>
    cases m with
    | mk nm vl =>
      dsimp only at h
      subst h
      rw [List.foldlM_cons]
      have hadd : arrayAdd ⟨nm, some (NodeValue.array vs)⟩ x
          = some ⟨nm, some (NodeValue.array (vs ++ [NodeValue.shapeID x]))⟩ := by
        simp [arrayAdd]
      rw [hadd]
      show arrayAppend ⟨nm, some (NodeValue.array vs)⟩ (x :: rest)
        = List.foldlM arrayAdd ⟨nm, some (NodeValue.array (vs ++ [NodeValue.shapeID x]))⟩ rest
      rw [← ih ⟨nm, some (NodeValue.array (vs ++ [NodeValue.shapeID x]))⟩
        (vs ++ [NodeValue.shapeID x]) rfl]
      simp [arrayAppend]

/-- Witness for claim C7 on an empty collection member. -/
theorem C7_witness :
    arrayAppend (Member.with_value "errors" (NodeValue.array [])) ["a", "b"]
      = List.foldlM arrayAdd (Member.with_value "errors" (NodeValue.array [])) ["a", "b"] :=
  C7_append_eq_repeated_add (Member.with_value "errors" (NodeValue.array [])) [] rfl ["a", "b"]
/-- Claim C8: `add_identifier` inserts or overwrites by key — two inserts
with the same key on a default `Resource` leave exactly the second pair —
and `mapInsert` preserves key uniqueness. -/
theorem C8_add_identifier_overwrites :
    (∀ (id : Identifier) (r1 r2 : ShapeID),
      ((Resource.default.add_identifier id r1).bind (fun r => r.add_identifier id r2)).bind
        Resource.identifiers = some [(id, r2)]) ∧
    (∀ (vs : List (Key × NodeValue)) (k : Key) (v : NodeValue),
      (vs.map Prod.fst).Nodup → ((mapInsert vs k v).map Prod.fst).Nodup) := by
  constructor
  · intro id r1 r2
    simp [Resource.default, Resource.add_identifier, mapInsert, Resource.identifiers,
      identifierPairs, Member.with_value, Member.new]
  · intro vs k v hnd
    unfold mapInsert
    split
    · have hkeys : (vs.map (fun p => if p.1 = k then (k, v) else p)).map Prod.fst
          = vs.map Prod.fst := by
        induction vs with
        | nil => rfl
        | cons p rest ih =>
          by_cases h : p.1 = k <;> simp_all <;>
            (intro a b _; by_cases hab : a = k <;> simp [hab])
      rw [hkeys]
      exact hnd
    · rename_i hany
      have hk : k ∉ vs.map Prod.fst := by
        intro hmem
        obtain ⟨p, hp, hpk⟩ := List.mem_map.mp hmem
        exact hany (List.any_eq_true.mpr ⟨p, hp, by simp [hpk]⟩)
      rw [List.map_append]
      rw [List.nodup_append]
      exact ⟨hnd, List.nodup_singleton k, by
        intro a ha hb
        simp only [List.map_cons, List.map_nil, List.mem_singleton] at hb
        subst hb
        exact hk ha⟩

/-- Witness for claim C8 at concrete identifiers. -/
theorem C8_witness :
    ((((Resource.default.add_identifier "id" "r1").bind
        (fun r => r.add_identifier "id" "r2")).bind Resource.identifiers)
      = some [("id", "r2")]) ∧
    ((mapInsert [("a", NodeValue.shapeID "r")] "a" (NodeValue.shapeID "s")).map Prod.fst).Nodup :=
  ⟨C8_add_identifier_overwrites.1 "id" "r1" "r2",
   C8_add_identifier_overwrites.2 [("a", NodeValue.shapeID "r")] "a" (NodeValue.shapeID "s")
     (by simp)⟩
end Atelier
